import Mathlib

/-!
Verification of the qwen-ocr batch-orchestration core against its
natural-language specification.

The Python sources are shallowly embedded: strings are modelled as
`List Char`, Python machine integers as `Int`/`Nat`, and the two
effectful model-call loops as explicit traces (number of attempts made,
backoff sleeps performed, final result).  Each definition mirrors one
function of the repository; the file then proves or refutes the frozen
claims about them.
-/

namespace QwenOCR

/-! ### Configuration constants (src/src/config.py, `Config._initialize`) -/

def MAX_RETRY_ATTEMPTS : Nat := 3

def EXPONENTIAL_BACKOFF_BASE : Nat := 2

def MIN_HTTP_ERROR_CODE : Nat := 400

def MIN_AREA_PERCENTAGE : ℚ := 5 / 100

def MAX_AREA_PERCENTAGE : ℚ := 85 / 100

/-! ### Python string primitives

Python `str` values are modelled as `List Char`.  `isPySpace` covers the
ASCII whitespace characters stripped by Python's `str.strip`/`str.lstrip`
(the sources only ever deal with ASCII markdown, so the wider Unicode
whitespace classes are out of scope). -/

def isPySpace (c : Char) : Bool :=
  c == ' ' || c == '\t' || c == '\n' || c == '\r' || c == '\x0b' || c == '\x0c'

/-- Python `text.split("\n")`: always returns at least one (possibly empty)
line; a trailing newline yields a trailing empty line. -/
def splitOnNl : List Char → List (List Char)
  | [] => [[]]
  | c :: cs =>
    if c = '\n' then [] :: splitOnNl cs
    else
      match splitOnNl cs with
      | [] => [[c]]
      | l :: ls => (c :: l) :: ls

/-- Python `"\n".join(lines)`. -/
def joinNl : List (List Char) → List Char
  | [] => []
  | [l] => l
  | l :: ls => l ++ '\n' :: joinNl ls

/-- Python `s.strip()` (both ends). -/
def pyStrip (l : List Char) : List Char :=
  ((l.dropWhile isPySpace).reverse.dropWhile isPySpace).reverse

/-! ### src/src/processing.py (identical code also in src/processing.py) -/

/-- The per-line body of the loop in `extract_headers`: `some (level, line)`
when the line is accepted as a markdown header, `none` otherwise. -/
def headerOfLine (line : List Char) : Option (Nat × List Char) :=
  let stripped := line.dropWhile isPySpace
  match stripped with
  | [] => none
  | c :: _ =>
    if c = '#' then
      let afterHashes := stripped.dropWhile (fun c => c == '#')
      let level := stripped.length - afterHashes.length
      if 0 < level ∧ level ≤ 6 then
        let header_text := pyStrip afterHashes
        if header_text ≠ [] then some (level, line) else none
      else none
    else none

/-- Model of `processing.extract_headers`: scan the text line by line and collect the
`(level, original line)` pairs of accepted markdown headers, in order. -/
def extract_headers (markdown : List Char) : List (Nat × List Char) :=
  (splitOnNl markdown).filterMap headerOfLine

/-- The line shape of the round-trip property in the spec:
`"#" * level + " " + text`. -/
def hashLine (level : Nat) (text : List Char) : List Char :=
  List.replicate level '#' ++ ' ' :: text

/-- Model of `processing.clean_markdown_output`: drop the first line when its strip
equals `"```markdown"` (and only then — the membership test in the source is
`in ["```markdown"]`), then drop the last line when its strip equals
`"```"`, and re-join. -/
def clean_markdown_output (text : List Char) : List Char :=
  let lines0 := splitOnNl text
  let lines1 :=
    match lines0 with
    | [] => []
    | l :: rest =>
      if pyStrip l = ("```markdown".toList) then rest else l :: rest
  let lines2 :=
    match lines1.getLast? with
    | none => lines1
    | some l =>
      if pyStrip l = ("```".toList) then lines1.dropLast else lines1
  joinNl lines2

/-- One iteration of the loop body of `processing.update_header_stack`
(the stack's top is the last list entry, as in the Python list). -/
def hsStep (new_stack : List (Int × List Char)) (lh : Int × List Char) :
    List (Int × List Char) :=
  match new_stack.getLast? with
  | none => new_stack ++ [lh]
  | some last =>
    if last.1 < lh.1 then
      new_stack ++ [lh]
    else if lh.1 = last.1 then
      new_stack.dropLast ++ [lh]
    else
      (new_stack.reverse.dropWhile (fun p => decide (lh.1 ≤ p.1))).reverse ++ [lh]

/-- Model of `processing.update_header_stack`: fold the loop body over the new
headers, starting from a copy of the old stack (the source copies the input
list, so the caller's stack is never mutated). -/
def update_header_stack (old_stack new_headers : List (Int × List Char)) :
    List (Int × List Char) :=
  new_headers.foldl hsStep old_stack

/-! ### Batch planning (src/src/models/document_job.py `_batch_iterator`,
identical code in src/main.py `OCRApp._batch_iterator`) -/

/-- Python `range(start, stop, step)` for a positive step. -/
def pythonRange (start stop step : Nat) : List Nat :=
  (List.range ((stop - start + step - 1) / step)).map (fun i => start + i * step)

/-- Model of `_batch_iterator(start_page, end_page, batch_size)`: enumerate
`(batch_num, page_start, page_end)` with `page_start = batch_start + 1` and
`page_end = min(batch_start + batch_size, end_page)` for `batch_start` in
`range(start_page - 1, end_page, batch_size)`. -/
def batch_iterator (start_page end_page batch_size : Nat) :
    List (Nat × Nat × Nat) :=
  (pythonRange (start_page - 1) end_page batch_size).enum.map
    (fun p => (p.1, p.2 + 1, min (p.2 + batch_size) end_page))

/-! ### Retry/backoff state machine
(src/src/models/document_job.py `_process_batch_text` and
`_process_batch_images` share this loop verbatim; so does
src/processing.py `process_batch_text` / `process_batch_images`.)

The body of one attempt is abstracted as an oracle from the 0-based
attempt index to its outcome; the loop is embedded as a function
returning the number of attempts actually made, the list of backoff
sleeps performed (in seconds, in order), and the final result. -/

inductive AttemptResult (α : Type) where
  | success (v : α)
  | statusError (code : Nat)
  | otherError
deriving DecidableEq

inductive CallResult (α : Type) where
  /-- normal return: the `return` inside the `try` body -/
  | success (v : α)
  /-- raised `RuntimeError("API error in batch ...")`, status below 400 -/
  | apiError (batch_num : Nat) (code : Nat)
  /-- raised `RuntimeError("Max retries exceeded for batch ...")` -/
  | maxRetriesExceeded (batch_num : Nat) (code : Nat)
  /-- raised `RuntimeError("Unexpected error in batch ...")` -/
  | unexpectedError (batch_num : Nat)
  /-- raised `RuntimeError("Unexpected code path")` after the loop -/
  | codePathError
deriving DecidableEq

structure RetryTrace (α : Type) where
  attempts : Nat
  sleeps : List Nat
  result : CallResult α
deriving DecidableEq

/-- The retry loop from attempt index `attempt` on, with `fuel` loop
iterations remaining (`for attempt in range(MAX_RETRY_ATTEMPTS)`). -/
def retryFrom {α : Type} (oracle : Nat → AttemptResult α) (batch_num : Nat) :
    Nat → Nat → RetryTrace α
  | 0, _ => ⟨0, [], .codePathError⟩
  | fuel + 1, attempt =>
    match oracle attempt with
    | .success v => ⟨1, [], .success v⟩
    | .otherError => ⟨1, [], .unexpectedError batch_num⟩
    | .statusError code =>
      if code < MIN_HTTP_ERROR_CODE then
        ⟨1, [], .apiError batch_num code⟩
      else if attempt < MAX_RETRY_ATTEMPTS - 1 then
        let rest := retryFrom oracle batch_num fuel (attempt + 1)
        ⟨rest.attempts + 1, (EXPONENTIAL_BACKOFF_BASE ^ attempt) :: rest.sleeps,
          rest.result⟩
      else
        ⟨1, [], .maxRetriesExceeded batch_num code⟩

/-- The full retry loop of `_process_batch_text` / `_process_batch_images`:
start at attempt 0 with `MAX_RETRY_ATTEMPTS` iterations available. -/
def process_batch_call {α : Type} (oracle : Nat → AttemptResult α)
    (batch_num : Nat) : RetryTrace α :=
  retryFrom oracle batch_num MAX_RETRY_ATTEMPTS 0

/-! ### Visual-element validation
(src/src/models/document_job.py `_process_batch_images` per-element loop,
plus src/src/pdf_handler.py `extract_image`). -/

inductive ElementType where
  | chart | graph | diagram | algorithm | table | screenshot | other
deriving DecidableEq

/-- Model of `models.image_metadata.ImageMetadata` (the pydantic schema). -/
structure ImageMetadata where
  page_number : Int
  fig_number : Int
  bbox : Int × Int × Int × Int
  caption : Option (List Char) := none
  element_type : ElementType := .other
deriving DecidableEq

/-- Model of `element_area / 1000000` as computed in `_process_batch_images`. -/
def normalized_area_percentage (bbox : Int × Int × Int × Int) : ℚ :=
  match bbox with
  | (x1, y1, x2, y2) => (((x2 - x1) * (y2 - y1) : Int) : ℚ) / 1000000

/-- The bbox-ordering check of `pdf_handler.extract_image`:
`0 <= x1 < x2 <= 1000 and 0 <= y1 < y2 <= 1000`. -/
def validBbox (bbox : Int × Int × Int × Int) : Bool :=
  match bbox with
  | (x1, y1, x2, y2) =>
    decide (0 ≤ x1 ∧ x1 < x2 ∧ x2 ≤ 1000 ∧ 0 ≤ y1 ∧ y1 < y2 ∧ y2 ≤ 1000)

inductive ElementOutcome where
  /-- area below `MIN_AREA_PERCENTAGE`: `continue`, nothing extracted or saved -/
  | skippedTooSmall
  /-- area above `MAX_AREA_PERCENTAGE`: `continue`, nothing extracted or saved -/
  | skippedTooLarge
  /-- success of `extract_image`: an `ExtractedImage` is appended and
  `save_to_disk` writes `{page_number}_fig{fig_number}.png` -/
  | extractedSaved
  /-- failure of `extract_image` (page lookup or bbox validation); the exception
  is caught, an error is reported, and the loop continues -/
  | extractionFailed
deriving DecidableEq

/-- The fate of one model-proposed element inside the per-element loop of
`_process_batch_images`.  `pages` lists the `page_num` of each `PageImage`
in the batch; the page lookup is `next(img for img in images if
img.page_num == page_number)`, whose `StopIteration` is caught by the
surrounding `except Exception`. -/
def elementOutcome (metadata : ImageMetadata) (pages : List Int) :
    ElementOutcome :=
  let area := normalized_area_percentage metadata.bbox
  if area < MIN_AREA_PERCENTAGE then .skippedTooSmall
  else if MAX_AREA_PERCENTAGE < area then .skippedTooLarge
  else
    match pages.find? (fun p => p == metadata.page_number) with
    | none => .extractionFailed
    | some _ =>
      if validBbox metadata.bbox then .extractedSaved else .extractionFailed

/-- The whole per-element loop: every proposed element is visited, in order,
and each gets its own outcome; the loop itself never raises, so the batch
call returns with this full list. -/
def processElements (elems : List ImageMetadata) (pages : List Int) :
    List (ImageMetadata × ElementOutcome) :=
  elems.map (fun m => (m, elementOutcome m pages))

/-- The elements for which an `ExtractedImage` is produced and a file is
written. -/
def savedElements (elems : List ImageMetadata) (pages : List Int) :
    List ImageMetadata :=
  elems.filter (fun m => decide (elementOutcome m pages = .extractedSaved))

/-! ## Theorems -/

/-- C3: for both model-call operations (text and image extraction share the
retry loop modelled by `process_batch_call`), if every attempt fails with an
HTTP status `≥ 400` then exactly `MAX_RETRY_ATTEMPTS = 3` attempts occur,
with backoff sleeps of `BACKOFF_BASE ^ 0 = 1` and `BACKOFF_BASE ^ 1 = 2`
seconds between consecutive attempts, and the call raises the
max-retries-exceeded error identifying the batch number; if instead attempt
`k < 3` succeeds after `k` retryable failures, the call returns successfully
after exactly `k + 1` attempts (with sleeps `1, 2, …` between them). -/
theorem C3_retry_policy {α : Type} (oracle : Nat → AttemptResult α) (b : Nat) :
    ((∀ i, i < MAX_RETRY_ATTEMPTS →
        ∃ c, MIN_HTTP_ERROR_CODE ≤ c ∧ oracle i = .statusError c) →
      ∀ c, oracle 2 = .statusError c →
        process_batch_call oracle b = ⟨3, [1, 2], .maxRetriesExceeded b c⟩) ∧
    (∀ k (v : α), k < MAX_RETRY_ATTEMPTS → oracle k = .success v →
      (∀ i, i < k → ∃ c, MIN_HTTP_ERROR_CODE ≤ c ∧ oracle i = .statusError c) →
        process_batch_call oracle b =
          ⟨k + 1, (List.range k).map (fun i => EXPONENTIAL_BACKOFF_BASE ^ i),
            .success v⟩) := by
  constructor
  · intro h c hc2
    obtain ⟨c0, hc0, he0⟩ := h 0 (by norm_num [MAX_RETRY_ATTEMPTS])
    obtain ⟨c1, hc1, he1⟩ := h 1 (by norm_num [MAX_RETRY_ATTEMPTS])
    obtain ⟨c2, hc2', he2⟩ := h 2 (by norm_num [MAX_RETRY_ATTEMPTS])
    simp only [MIN_HTTP_ERROR_CODE] at hc0 hc1 hc2'
    have n0 : ¬ (c0 < 400) := by omega
    have n1 : ¬ (c1 < 400) := by omega
    have n2 : ¬ (c < 400) := by
      rw [hc2] at he2; injection he2 with h'; omega
    simp [process_batch_call, retryFrom, he0, he1, hc2, n0, n1, n2,
      MAX_RETRY_ATTEMPTS, MIN_HTTP_ERROR_CODE, EXPONENTIAL_BACKOFF_BASE]
  · intro k v hk hsucc h
    simp only [MAX_RETRY_ATTEMPTS] at hk
    interval_cases k
    · simp [process_batch_call, retryFrom, hsucc, MAX_RETRY_ATTEMPTS]
    · obtain ⟨c0, hc0, he0⟩ := h 0 (by norm_num)
      simp only [MIN_HTTP_ERROR_CODE] at hc0
      have n0 : ¬ (c0 < 400) := by omega
      simp [process_batch_call, retryFrom, he0, hsucc, n0,
        MAX_RETRY_ATTEMPTS, MIN_HTTP_ERROR_CODE, EXPONENTIAL_BACKOFF_BASE,
        List.range_succ]
    · obtain ⟨c0, hc0, he0⟩ := h 0 (by norm_num)
      obtain ⟨c1, hc1, he1⟩ := h 1 (by norm_num)
      simp only [MIN_HTTP_ERROR_CODE] at hc0 hc1
      have n0 : ¬ (c0 < 400) := by omega
      have n1 : ¬ (c1 < 400) := by omega
      simp [process_batch_call, retryFrom, he0, he1, hsucc, n0, n1,
        MAX_RETRY_ATTEMPTS, MIN_HTTP_ERROR_CODE, EXPONENTIAL_BACKOFF_BASE,
        List.range_succ]

/-- Witness for C3: an endpoint answering 503 on every attempt makes the
call fail after 3 attempts with sleeps 1s then 2s; an endpoint answering
500 twice then succeeding makes the call succeed after 3 attempts with the
same sleeps. -/
theorem C3_retry_policy_witness :
    process_batch_call (fun _ => AttemptResult.statusError (α := Nat) 503) 7 =
      ⟨3, [1, 2], .maxRetriesExceeded 7 503⟩ ∧
    process_batch_call
        (fun i => if i < 2 then AttemptResult.statusError (α := Nat) 500
          else .success 42) 7 =
      ⟨3, [1, 2], .success 42⟩ := by
  constructor
  · exact (C3_retry_policy (fun _ => AttemptResult.statusError 503) 7).1
      (fun i _ => ⟨503, by norm_num [MIN_HTTP_ERROR_CODE], rfl⟩) 503 rfl
  · exact (C3_retry_policy
      (fun i => if i < 2 then AttemptResult.statusError 500 else .success 42) 7).2
      2 42 (by norm_num [MAX_RETRY_ATTEMPTS]) (by norm_num)
      (fun i hi => ⟨500, by norm_num [MIN_HTTP_ERROR_CODE],
        by simp [show i < 2 from hi]⟩)

/-- C4 counterexample: the claim says a 403 response causes exactly 1
attempt, an immediate raise, and no backoff sleep.  On the code, 403
satisfies `status_code >= MIN_HTTP_ERROR_CODE (400)`, so it is retried:
an endpoint answering 403 on every attempt sees 3 attempts and sleeps
`[1, 2]`, refuting the claim at this concrete input. -/
theorem C4_counterexample :
    process_batch_call (fun _ => AttemptResult.statusError (α := Unit) 403) 0 =
      ⟨3, [1, 2], .maxRetriesExceeded 0 403⟩ ∧
    ¬ ((process_batch_call
          (fun _ => AttemptResult.statusError (α := Unit) 403) 0).attempts = 1 ∧
       (process_batch_call
          (fun _ => AttemptResult.statusError (α := Unit) 403) 0).sleeps = []) := by
  constructor
  · rfl
  · intro h
    have := h.1
    simp [process_batch_call, retryFrom, MAX_RETRY_ATTEMPTS,
      MIN_HTTP_ERROR_CODE, EXPONENTIAL_BACKOFF_BASE] at this

/-- C4 amended: a model call that fails with HTTP status 403 on every
attempt is retried like any other `status_code >= 400` failure: exactly
`MAX_RETRY_ATTEMPTS = 3` attempts occur, with backoff sleeps of 1s then 2s,
and the call then raises the max-retries-exceeded error identifying the
batch number. -/
theorem C4_amended_403_retried {α : Type} (oracle : Nat → AttemptResult α)
    (b : Nat) (h : ∀ i, i < MAX_RETRY_ATTEMPTS → oracle i = .statusError 403) :
    process_batch_call oracle b = ⟨3, [1, 2], .maxRetriesExceeded b 403⟩ := by
  have h0 := h 0 (by norm_num [MAX_RETRY_ATTEMPTS])
  have h1 := h 1 (by norm_num [MAX_RETRY_ATTEMPTS])
  have h2 := h 2 (by norm_num [MAX_RETRY_ATTEMPTS])
  simp [process_batch_call, retryFrom, h0, h1, h2, MAX_RETRY_ATTEMPTS,
    MIN_HTTP_ERROR_CODE, EXPONENTIAL_BACKOFF_BASE]

/-- Witness for the amended C4, at the constant-403 oracle. -/
theorem C4_amended_403_retried_witness :
    process_batch_call (fun _ => AttemptResult.statusError (α := Nat) 403) 5 =
      ⟨3, [1, 2], .maxRetriesExceeded 5 403⟩ :=
  C4_amended_403_retried (fun _ => AttemptResult.statusError 403) 5
    (fun _ _ => rfl)

/-- C6: the claim says any leading code-fence marker line (```markdown or
```) is stripped, and the code's own comment agrees ("Remove leading
```markdown or ```"), but the membership test `in ["```markdown"]` omits
the bare ``` variant: on the input `"```\nhello"` the first line strips to
the fence marker ``` yet the cleaned output still begins with it
(the output equals the input unchanged). -/
theorem C6_leading_bare_fence_not_stripped :
    splitOnNl ("```\nhello".toList) = ["```".toList, "hello".toList] ∧
    pyStrip ("```".toList) = ("```".toList) ∧
    clean_markdown_output ("```\nhello".toList) = ("```\nhello".toList) := by
  refine ⟨by decide, by decide, by decide⟩

/-- C7: every model-proposed element whose normalized bbox area
`(x2-x1)*(y2-y1)/1000000` is strictly below `MIN_AREA_PERCENTAGE` (0.05) or
strictly above `MAX_AREA_PERCENTAGE` (0.85) is rejected by the area filter:
its outcome is one of the two skip outcomes (so no crop is performed, no
`ExtractedImage` is produced and no file is written), and it never appears
among the saved elements of any batch. -/
theorem C7_area_filter (m : ImageMetadata) (pages : List Int)
    (h : normalized_area_percentage m.bbox < MIN_AREA_PERCENTAGE ∨
         MAX_AREA_PERCENTAGE < normalized_area_percentage m.bbox) :
    (elementOutcome m pages = .skippedTooSmall ∨
     elementOutcome m pages = .skippedTooLarge) ∧
    ∀ elems, m ∉ savedElements elems pages := by
  have hout : elementOutcome m pages = .skippedTooSmall ∨
      elementOutcome m pages = .skippedTooLarge := by
    unfold elementOutcome
    rcases h with h | h
    · left; simp [h]
    · have hminmax : MIN_AREA_PERCENTAGE < MAX_AREA_PERCENTAGE := by
        norm_num [MIN_AREA_PERCENTAGE, MAX_AREA_PERCENTAGE]
      have hn : ¬ (normalized_area_percentage m.bbox < MIN_AREA_PERCENTAGE) :=
        not_lt.mpr (le_of_lt (lt_trans hminmax h))
      right; simp [hn, h]
  refine ⟨hout, ?_⟩
  intro elems hmem
  rw [savedElements, List.mem_filter] at hmem
  have hsaved := of_decide_eq_true hmem.2
  rcases hout with h' | h' <;> rw [h'] at hsaved <;> exact absurd hsaved (by simp)

/-- Witness for C7: a 10×10 bbox (normalized area 0.0001) on a matching
page is skipped as too small and saved nowhere. -/
theorem C7_area_filter_witness :
    (elementOutcome ⟨5, 1, (0, 0, 10, 10), none, .other⟩ [5] =
        .skippedTooSmall ∨
     elementOutcome ⟨5, 1, (0, 0, 10, 10), none, .other⟩ [5] =
        .skippedTooLarge) ∧
    ⟨5, 1, (0, 0, 10, 10), none, .other⟩ ∉
      savedElements [⟨5, 1, (0, 0, 10, 10), none, .other⟩] [5] := by
  have h := C7_area_filter ⟨5, 1, (0, 0, 10, 10), none, .other⟩ [5]
    (Or.inl (by norm_num [normalized_area_percentage, MIN_AREA_PERCENTAGE]))
  exact ⟨h.1, h.2 [⟨5, 1, (0, 0, 10, 10), none, .other⟩]⟩

/-- C8: per-element failure isolation.  If one element fails (its bbox
violates `0 ≤ x1 < x2 ≤ 1000 ∧ 0 ≤ y1 < y2 ≤ 1000`, or no page in the
batch matches its `page_number`), then no image is extracted or saved for
it, yet every other element of the batch — before or after it — is
processed exactly as it would be on its own, and the batch's
image-extraction loop still completes with the full outcome list (the
per-element exception is caught inside the loop). -/
theorem C8_per_element_isolation (pre post : List ImageMetadata)
    (m : ImageMetadata) (pages : List Int)
    (h : validBbox m.bbox = false ∨
         pages.find? (fun p => p == m.page_number) = none) :
    elementOutcome m pages ≠ .extractedSaved ∧
    processElements (pre ++ m :: post) pages =
      processElements pre pages ++
        (m, elementOutcome m pages) :: processElements post pages ∧
    savedElements (pre ++ m :: post) pages =
      savedElements pre pages ++ savedElements post pages := by
  have hns : elementOutcome m pages ≠ .extractedSaved := by
    unfold elementOutcome
    by_cases h1 : normalized_area_percentage m.bbox < MIN_AREA_PERCENTAGE
    · simp [h1]
    · by_cases h2 : MAX_AREA_PERCENTAGE < normalized_area_percentage m.bbox
      · simp [h1, h2]
      · rcases h with hbb | hf
        · cases hfind : pages.find? (fun p => p == m.page_number) <;>
            simp [h1, h2, hfind, hbb]
        · simp [h1, h2, hf]
  refine ⟨hns, ?_, ?_⟩
  · simp [processElements]
  · simp only [savedElements, List.filter_append]
    congr 1
    rw [List.filter_cons_of_neg]
    simp [hns]

/-- Witness for C8: an element with reversed x-coordinates (x1 = 500 >
x2 = 300) is isolated; the valid element after it is still processed and
saved. -/
theorem C8_per_element_isolation_witness :
    elementOutcome ⟨5, 1, (500, 0, 300, 900), none, .other⟩ [5] ≠
      .extractedSaved ∧
    processElements [⟨5, 1, (500, 0, 300, 900), none, .other⟩,
        ⟨5, 2, (0, 0, 500, 500), none, .other⟩] [5] =
      processElements [] [5] ++
        (⟨5, 1, (500, 0, 300, 900), none, .other⟩,
          elementOutcome ⟨5, 1, (500, 0, 300, 900), none, .other⟩ [5]) ::
          processElements [⟨5, 2, (0, 0, 500, 500), none, .other⟩] [5] ∧
    savedElements [⟨5, 1, (500, 0, 300, 900), none, .other⟩,
        ⟨5, 2, (0, 0, 500, 500), none, .other⟩] [5] =
      savedElements [] [5] ++
        savedElements [⟨5, 2, (0, 0, 500, 500), none, .other⟩] [5] :=
  C8_per_element_isolation [] [⟨5, 2, (0, 0, 500, 500), none, .other⟩]
    ⟨5, 1, (500, 0, 300, 900), none, .other⟩ [5] (Or.inl (by decide))

/-! ### Header-stack lemmas -/

theorem dropWhile_head?_false {α : Type} (p : α → Bool) (l : List α) :
    ∀ x, (l.dropWhile p).head? = some x → p x = false := by
  induction l with
  | nil => intro x hx; simp [List.dropWhile] at hx
  | cons a t ih =>
    intro x hx
    rw [List.dropWhile_cons] at hx
    by_cases hpa : p a
    · rw [if_pos hpa] at hx
      exact ih x hx
    · rw [if_neg hpa] at hx
      simp only [List.head?_cons, Option.some.injEq] at hx
      subst hx
      exact Bool.eq_false_iff.mpr hpa

theorem dropWhile_prefix_exists {α : Type} (p : α → Bool) (l : List α) :
    ∃ t, l = t ++ l.dropWhile p :=
  ⟨l.takeWhile p, (List.takeWhile_append_dropWhile p l).symm⟩

/-- One loop iteration of `update_header_stack` preserves the
strictly-increasing-levels invariant. -/
theorem hsStep_chain (s : List (Int × List Char)) (lh : Int × List Char)
    (hs : List.Chain' (fun a b => a.1 < b.1) s) :
    List.Chain' (fun a b => a.1 < b.1) (hsStep s lh) := by
  unfold hsStep
  cases hlast : s.getLast? with
  | none =>
    have hnil : s = [] := List.getLast?_eq_none_iff.mp hlast
    subst hnil
    simp
  | some last =>
    dsimp only
    split_ifs with h1 h2
    · rw [List.chain'_append]
      refine ⟨hs, List.chain'_singleton _, ?_⟩
      intro x hx y hy
      rw [hlast] at hx
      simp only [Option.mem_def, Option.some.injEq] at hx
      simp only [List.head?_cons, Option.mem_def, Option.some.injEq] at hy
      subst hx; subst hy
      exact h1
    · have hmem : last ∈ s.getLast? := by rw [hlast]; rfl
      have hsplit : s.dropLast ++ [last] = s :=
        List.dropLast_append_getLast? last hmem
      have hs' := hs
      rw [← hsplit, List.chain'_append] at hs'
      obtain ⟨hd, -, hrel⟩ := hs'
      rw [List.chain'_append]
      refine ⟨hd, List.chain'_singleton _, ?_⟩
      intro x hx y hy
      simp only [List.head?_cons, Option.mem_def, Option.some.injEq] at hy
      subst hy
      have hxl := hrel x hx last (by rfl)
      have : (x.1 : Int) < last.1 := hxl
      omega
    · obtain ⟨t, ht⟩ :=
        dropWhile_prefix_exists (fun p => decide (lh.1 ≤ p.1)) s.reverse
      have hsdecomp :
          s = (s.reverse.dropWhile (fun p => decide (lh.1 ≤ p.1))).reverse ++
            t.reverse := by
        have hrr : s.reverse.reverse =
            (t ++ s.reverse.dropWhile (fun p => decide (lh.1 ≤ p.1))).reverse := by
          rw [← ht]
        rw [List.reverse_reverse, List.reverse_append] at hrr
        exact hrr
      have hs' := hs
      rw [hsdecomp, List.chain'_append] at hs'
      obtain ⟨hd, -, -⟩ := hs'
      rw [List.chain'_append]
      refine ⟨hd, List.chain'_singleton _, ?_⟩
      intro x hx y hy
      simp only [List.head?_cons, Option.mem_def, Option.some.injEq] at hy
      subst hy
      rw [List.getLast?_reverse] at hx
      have hpx := dropWhile_head?_false (fun p => decide (lh.1 ≤ p.1))
        s.reverse x (Option.mem_def.mp hx)
      simp only [decide_eq_false_iff_not, not_le] at hpx
      exact hpx

/-- C2: `update_header_stack` preserves the header-stack invariant — for
every input stack in strictly increasing level order and every list of new
`(level, text)` pairs with positive levels, the returned stack is again in
strictly increasing level order. -/
theorem C2_header_stack_invariant
    (old_stack new_headers : List (Int × List Char))
    (hold : List.Chain' (fun a b => a.1 < b.1) old_stack)
    (hpos : ∀ p ∈ new_headers, 0 < p.1) :
    List.Chain' (fun a b => a.1 < b.1)
      (update_header_stack old_stack new_headers) := by
  unfold update_header_stack
  induction new_headers generalizing old_stack with
  | nil => exact hold
  | cons lh rest ih =>
    rw [List.foldl_cons]
    exact ih (hsStep old_stack lh) (hsStep_chain old_stack lh hold)
      (fun p hp => hpos p (List.mem_cons_of_mem _ hp))

/-- Witness for C2 at the spec's worked example: the stack `[(1, "# A")]`
updated with `[(2, "## B"), (2, "## C"), (1, "# D")]` stays strictly
increasing in level. -/
theorem C2_header_stack_invariant_witness :
    List.Chain' (fun a b => a.1 < b.1)
      (update_header_stack [((1 : Int), "# A".toList)]
        [((2 : Int), "## B".toList), ((2 : Int), "## C".toList),
         ((1 : Int), "# D".toList)]) :=
  C2_header_stack_invariant _ _ (List.chain'_singleton _)
    (by intro p hp; simp only [List.mem_cons, List.not_mem_nil, or_false] at hp
        rcases hp with h | h | h <;> subst h <;> norm_num)

/-- Every loop iteration of `update_header_stack` ends by appending the new
header, so it leaves it on top of the stack. -/
theorem hsStep_getLast (s : List (Int × List Char)) (lh : Int × List Char) :
    (hsStep s lh).getLast? = some lh := by
  unfold hsStep
  cases s.getLast? with
  | none => simp
  | some last =>
    dsimp only
    split_ifs <;> simp

theorem foldl_hsStep_getLast (old : List (Int × List Char)) :
    ∀ new_headers : List (Int × List Char), new_headers ≠ [] →
      (new_headers.foldl hsStep old).getLast? = new_headers.getLast? := by
  intro new_headers
  induction new_headers generalizing old with
  | nil => intro hne; cases hne rfl
  | cons lh rest ih =>
    intro _
    cases rest with
    | nil => simp [hsStep_getLast]
    | cons q qs =>
      rw [List.foldl_cons, ih (hsStep old lh) (by simp),
        List.getLast?_cons_cons]

/-- C9: for every input stack and every non-empty list of new header pairs
with positive levels, `update_header_stack` returns a non-empty stack whose
top (last) entry is the last new pair.  (Totality and non-mutation hold by
construction of the embedding, mirroring the source: the pop loop tests
`new_stack` for emptiness before popping, and the function operates on
`old_stack.copy()`.) -/
theorem C9_result_top (old_stack new_headers : List (Int × List Char))
    (hne : new_headers ≠ []) (hpos : ∀ p ∈ new_headers, 0 < p.1) :
    update_header_stack old_stack new_headers ≠ [] ∧
    (update_header_stack old_stack new_headers).getLast? =
      new_headers.getLast? := by
  have hlast : (update_header_stack old_stack new_headers).getLast? =
      new_headers.getLast? := foldl_hsStep_getLast old_stack new_headers hne
  refine ⟨?_, hlast⟩
  intro hnil
  rw [hnil] at hlast
  have := List.getLast?_isSome.mpr hne
  rw [← hlast] at this
  simp at this

/-- Witness for C9: updating the empty stack with the spec's example
headers leaves `(1, "# D")` on top. -/
theorem C9_result_top_witness :
    update_header_stack ([] : List (Int × List Char))
        [((2 : Int), "## B".toList), ((1 : Int), "# D".toList)] ≠ [] ∧
    (update_header_stack ([] : List (Int × List Char))
        [((2 : Int), "## B".toList), ((1 : Int), "# D".toList)]).getLast? =
      ([((2 : Int), "## B".toList), ((1 : Int), "# D".toList)]).getLast? :=
  C9_result_top [] _ (by simp)
    (by intro p hp; simp only [List.mem_cons, List.not_mem_nil, or_false] at hp
        rcases hp with h | h <;> subst h <;> norm_num)

/-! ### Heading-extraction lemmas -/

theorem splitOnNl_no_nl (l : List Char) (h : '\n' ∉ l) : splitOnNl l = [l] := by
  induction l with
  | nil => rfl
  | cons c cs ih =>
    have hc : ¬ (c = '\n') := fun he => h (he ▸ List.mem_cons_self c cs)
    rw [splitOnNl, if_neg hc, ih (fun hm => h (List.mem_cons_of_mem c hm))]

theorem splitOnNl_append (l r : List Char) (h : '\n' ∉ l) :
    splitOnNl (l ++ '\n' :: r) = l :: splitOnNl r := by
  induction l with
  | nil => simp [splitOnNl]
  | cons c cs ih =>
    have hc : ¬ (c = '\n') := fun he => h (he ▸ List.mem_cons_self c cs)
    rw [List.cons_append, splitOnNl, if_neg hc,
      ih (fun hm => h (List.mem_cons_of_mem c hm))]

theorem splitOnNl_joinNl (lines : List (List Char)) (hne : lines ≠ [])
    (h : ∀ l ∈ lines, '\n' ∉ l) :
    splitOnNl (joinNl lines) = lines := by
  induction lines with
  | nil => cases hne rfl
  | cons l rest ih =>
    cases rest with
    | nil => simpa [joinNl] using splitOnNl_no_nl l (h l (by simp))
    | cons l2 ls =>
      show splitOnNl (l ++ '\n' :: joinNl (l2 :: ls)) = _
      rw [splitOnNl_append _ _ (h l (by simp)),
        ih (by simp) (fun x hx => h x (List.mem_cons_of_mem _ hx))]

theorem pyStrip_ne_nil (l : List Char) (h : ∃ c ∈ l, isPySpace c = false) :
    pyStrip l ≠ [] := by
  intro hn
  obtain ⟨c, hc, hcf⟩ := h
  unfold pyStrip at hn
  rw [List.reverse_eq_nil_iff, List.dropWhile_eq_nil_iff] at hn
  have hall : ∀ x ∈ l.dropWhile isPySpace, isPySpace x = true := by
    intro x hx
    exact hn x (List.mem_reverse.mpr hx)
  have htot : ∀ x ∈ l, isPySpace x = true := by
    intro x hx
    rw [← List.takeWhile_append_dropWhile isPySpace l] at hx
    rcases List.mem_append.mp hx with h1 | h2
    · exact List.mem_takeWhile_imp h1
    · exact hall x h2
  rw [htot c hc] at hcf
  cases hcf

theorem dropWhile_hash_replicate (n : Nat) (t : List Char) :
    (List.replicate n '#' ++ ' ' :: t).dropWhile (fun c => c == '#') =
      ' ' :: t := by
  induction n with
  | zero => simp [List.dropWhile_cons]
  | succ k ih => simp [List.replicate_succ, List.dropWhile_cons, ih]

theorem headerOfLine_hashLine (level : Nat) (text : List Char)
    (h1 : 1 ≤ level) (h6 : level ≤ 6)
    (ht : ∃ c ∈ text, isPySpace c = false) :
    headerOfLine (hashLine level text) = some (level, hashLine level text) := by
  obtain ⟨k, rfl⟩ : ∃ k, level = k + 1 := ⟨level - 1, by omega⟩
  have hstrip : (hashLine (k + 1) text).dropWhile isPySpace =
      hashLine (k + 1) text := by
    unfold hashLine
    rw [List.replicate_succ, List.cons_append, List.dropWhile_cons]
    simp [isPySpace]
  have hhash : (hashLine (k + 1) text).dropWhile (fun c => c == '#') =
      ' ' :: text := dropWhile_hash_replicate (k + 1) text
  have hlen : (hashLine (k + 1) text).length = (k + 1) + (1 + text.length) := by
    simp [hashLine]; omega
  unfold headerOfLine
  rw [hstrip]
  have hsh : hashLine (k + 1) text = '#' :: (List.replicate k '#' ++ ' ' :: text) := by
    unfold hashLine
    rw [List.replicate_succ, List.cons_append]
  rw [hsh]
  dsimp only
  rw [if_pos rfl]
  rw [← hsh, hhash, hlen]
  have hlev : (k + 1) + (1 + text.length) - (' ' :: text).length = k + 1 := by
    simp; omega
  rw [hlev]
  rw [if_pos ⟨Nat.succ_pos k, h6⟩]
  rw [if_pos (pyStrip_ne_nil (' ' :: text) ?hne)]
  case hne =>
    obtain ⟨c, hc, hcf⟩ := ht
    exact ⟨c, List.mem_cons_of_mem _ hc, hcf⟩

theorem headerOfLine_inv (line : List Char) (p : Nat × List Char)
    (h : headerOfLine line = some p) :
    p.2 = line ∧ 1 ≤ p.1 ∧ p.1 ≤ 6 ∧
    (line.dropWhile isPySpace).length -
      ((line.dropWhile isPySpace).dropWhile (fun c => c == '#')).length = p.1 ∧
    pyStrip ((line.dropWhile isPySpace).dropWhile (fun c => c == '#')) ≠ [] := by
  unfold headerOfLine at h
  cases hs : line.dropWhile isPySpace with
  | nil => rw [hs] at h; exact absurd h (by simp)
  | cons c rest =>
    rw [hs] at h
    dsimp only at h
    split_ifs at h with hc hlev hne
    · injection h with h'
      have hp := h'.symm
      subst hp
      exact ⟨rfl, hlev.1, hlev.2, rfl, hne⟩

theorem extract_headers_snd_sublist (lines : List (List Char)) :
    List.Sublist ((lines.filterMap headerOfLine).map Prod.snd) lines := by
  induction lines with
  | nil => simp
  | cons l rest ih =>
    cases hl : headerOfLine l with
    | none =>
      rw [List.filterMap_cons_none hl]
      exact ih.cons l
    | some p =>
      rw [List.filterMap_cons_some hl, List.map_cons, (headerOfLine_inv l p hl).1]
      exact ih.cons₂ l

/-- C10: every pair returned by `extract_headers` has a level between 1
and 6 that equals the length of the hash run at the start of the
whitespace-stripped line, with non-empty heading text remaining after the
hashes (so a line with seven or more leading `#` or with no text after the
hashes is never emitted), and the returned lines form an in-order verbatim
subsequence of the input's lines. -/
theorem C10_extract_headers_wellformed (markdown : List Char) :
    (∀ p ∈ extract_headers markdown,
       1 ≤ p.1 ∧ p.1 ≤ 6 ∧
       (p.2.dropWhile isPySpace).length -
         ((p.2.dropWhile isPySpace).dropWhile (fun c => c == '#')).length =
           p.1 ∧
       pyStrip ((p.2.dropWhile isPySpace).dropWhile (fun c => c == '#')) ≠
         []) ∧
    List.Sublist ((extract_headers markdown).map Prod.snd)
      (splitOnNl markdown) := by
  constructor
  · intro p hp
    rw [extract_headers, List.mem_filterMap] at hp
    obtain ⟨line, hline, hsome⟩ := hp
    have hi := headerOfLine_inv line p hsome
    rw [hi.1]
    exact ⟨hi.2.1, hi.2.2.1, hi.2.2.2.1, hi.2.2.2.2⟩
  · exact extract_headers_snd_sublist (splitOnNl markdown)

theorem C10_witness :
    ((1 : Nat) ≤ (1, "# A".toList).1 ∧ (1, "# A".toList).1 ≤ 6 ∧
     ((1, "# A".toList).2.dropWhile isPySpace).length -
       (((1, "# A".toList).2.dropWhile isPySpace).dropWhile
         (fun c => c == '#')).length = (1, "# A".toList).1 ∧
     pyStrip (((1, "# A".toList).2.dropWhile isPySpace).dropWhile
       (fun c => c == '#')) ≠ []) ∧
    List.Sublist ((extract_headers ("# A\nplain".toList)).map Prod.snd)
      (splitOnNl ("# A\nplain".toList)) :=
  ⟨(C10_extract_headers_wellformed ("# A\nplain".toList)).1
      (1, "# A".toList) (by decide),
   (C10_extract_headers_wellformed ("# A\nplain".toList)).2⟩

theorem nl_not_mem_hashLine (level : Nat) (text : List Char)
    (h : '\n' ∉ text) : '\n' ∉ hashLine level text := by
  intro hm
  unfold hashLine at hm
  rcases List.mem_append.mp hm with h1 | h2
  · exact absurd (List.eq_of_mem_replicate h1) (by decide)
  · rcases List.mem_cons.mp h2 with h3 | h4
    · exact absurd h3 (by decide)
    · exact h h4

theorem filterMap_headerOfLine_hashLines (ps : List (Nat × List Char))
    (hlv : ∀ p ∈ ps, 1 ≤ p.1 ∧ p.1 ≤ 6)
    (htext : ∀ p ∈ ps, ∃ c ∈ p.2, isPySpace c = false) :
    (ps.map (fun p => hashLine p.1 p.2)).filterMap headerOfLine =
      ps.map (fun p => (p.1, hashLine p.1 p.2)) := by
  induction ps with
  | nil => rfl
  | cons p rest ih =>
    rw [List.map_cons,
      List.filterMap_cons_some (headerOfLine_hashLine p.1 p.2
        (hlv p (List.mem_cons_self p rest)).1
        (hlv p (List.mem_cons_self p rest)).2
        (htext p (List.mem_cons_self p rest))),
      ih (fun q hq => hlv q (List.mem_cons_of_mem _ hq))
        (fun q hq => htext q (List.mem_cons_of_mem _ hq)),
      List.map_cons]

/-- C5 counterexample: `"####### x"` is a line of the claimed shape with
`level = 7 >= 1` and nonempty text, yet `extract_headers` returns 0 tuples
for it, not 1 (the code only accepts levels 1–6). -/
theorem C5_counterexample :
    ("####### x".toList = hashLine 7 ("x".toList)) ∧
    extract_headers ("####### x".toList) = [] := by
  exact ⟨by decide, by decide⟩

/-- C5 amended: for every text formed by joining lines of the shape
`"#" * level + " " + text` where each level is between 1 and 6 and each
text contains no newline and at least one non-whitespace character,
`extract_headers` returns exactly one `(level, line)` tuple per line, in
order, with the original line preserved verbatim. -/
theorem C5_roundtrip (pairs : List (Nat × List Char))
    (hlv : ∀ p ∈ pairs, 1 ≤ p.1 ∧ p.1 ≤ 6)
    (htext : ∀ p ∈ pairs, '\n' ∉ p.2 ∧ ∃ c ∈ p.2, isPySpace c = false) :
    extract_headers (joinNl (pairs.map (fun p => hashLine p.1 p.2))) =
      pairs.map (fun p => (p.1, hashLine p.1 p.2)) := by
  cases hp : pairs with
  | nil => rfl
  | cons p0 rest =>
    rw [← hp, extract_headers, splitOnNl_joinNl]
    · exact filterMap_headerOfLine_hashLines pairs hlv
        (fun q hq => (htext q hq).2)
    · rw [hp]; simp
    · intro l hl
      rw [List.mem_map] at hl
      obtain ⟨q, hq, rfl⟩ := hl
      exact nl_not_mem_hashLine q.1 q.2 (htext q hq).1

/-- Witness for the amended C5 at two concrete lines `# A` and `## B`. -/
theorem C5_roundtrip_witness :
    extract_headers (joinNl ([((1 : Nat), "A".toList),
        ((2 : Nat), "B".toList)].map (fun p => hashLine p.1 p.2))) =
      [((1 : Nat), "A".toList), ((2 : Nat), "B".toList)].map
        (fun p => (p.1, hashLine p.1 p.2)) :=
  C5_roundtrip [(1, "A".toList), (2, "B".toList)]
    (by intro p hp; rcases List.mem_cons.mp hp with h | h
        · subst h; exact ⟨by norm_num, by norm_num⟩
        · rcases List.mem_cons.mp h with h2 | h2
          · subst h2; exact ⟨by norm_num, by norm_num⟩
          · cases h2)
    (by intro p hp; rcases List.mem_cons.mp hp with h | h
        · subst h; exact ⟨by decide, ⟨'A', by decide, by decide⟩⟩
        · rcases List.mem_cons.mp h with h2 | h2
          · subst h2; exact ⟨by decide, ⟨'B', by decide, by decide⟩⟩
          · cases h2)

/-! ### Batch-planner lemmas -/

/-- Ceiling-division bound: `i < (m + B - 1) / B` iff `i * B < m`. -/
theorem lt_ceil_div_iff (m B i : Nat) (hB : 0 < B) :
    i < (m + B - 1) / B ↔ i * B < m := by
  rw [Nat.lt_iff_add_one_le, Nat.le_div_iff_mul_le hB]
  have h : (i + 1) * B = i * B + B := by ring
  rw [h]
  generalize i * B = k
  omega

theorem batch_iterator_length (s e B : Nat) (hs : 1 ≤ s) :
    (batch_iterator s e B).length = (e + 1 - s + B - 1) / B := by
  have h : e - (s - 1) + B - 1 = e + 1 - s + B - 1 := by omega
  simp [batch_iterator, pythonRange, List.enum_length, h]

theorem batch_iterator_get (s e B i : Nat) (hs : 1 ≤ s)
    (h : i < (batch_iterator s e B).length) :
    (batch_iterator s e B).get ⟨i, h⟩ =
      (i, s + i * B, min (s + i * B + B - 1) e) := by
  have h1 : s - 1 + i * B + 1 = s + i * B := by omega
  have h2 : s - 1 + i * B + B = s + i * B + B - 1 := by omega
  simp only [batch_iterator, pythonRange, List.get_eq_getElem, List.getElem_map,
    List.getElem_enum, List.getElem_range, h1, h2]

theorem batch_iterator_getElem (s e B i : Nat) (hs : 1 ≤ s)
    (h : i < (batch_iterator s e B).length) :
    (batch_iterator s e B)[i] = (i, s + i * B, min (s + i * B + B - 1) e) := by
  have h1 : s - 1 + i * B + 1 = s + i * B := by omega
  have h2 : s - 1 + i * B + B = s + i * B + B - 1 := by omega
  simp only [batch_iterator, pythonRange, List.getElem_map,
    List.getElem_enum, List.getElem_range, h1, h2]

/-- C1: for `startPage ≥ 1`, `batchSize ≥ 1`, the batch iterator yields a
finite ordered sequence of `(batch_num, page_start, page_end)` descriptors:
it is empty iff `endPage < startPage`; batch numbers are `0, 1, 2, …` in
enumeration order; the inclusive page spans exactly cover `[startPage,
endPage]`, are pairwise disjoint and contiguous in order; every span except
possibly the last has length `batchSize`, and the last has length
`((endPage - startPage + 1) - 1) % batchSize + 1 ≤ batchSize`. -/
theorem C1_batch_planner (s e B : Nat) (hs : 1 ≤ s) (hB : 1 ≤ B) :
    (e < s → batch_iterator s e B = []) ∧
    (s ≤ e → batch_iterator s e B ≠ []) ∧
    ((batch_iterator s e B).map Prod.fst =
      List.range (batch_iterator s e B).length) ∧
    (∀ p, (s ≤ p ∧ p ≤ e) ↔
      ∃ d ∈ batch_iterator s e B, d.2.1 ≤ p ∧ p ≤ d.2.2) ∧
    (∀ i j (hi : i < (batch_iterator s e B).length)
        (hj : j < (batch_iterator s e B).length), i < j →
      ((batch_iterator s e B).get ⟨i, hi⟩).2.2 <
        ((batch_iterator s e B).get ⟨j, hj⟩).2.1) ∧
    (∀ i (hi : i + 1 < (batch_iterator s e B).length),
      ((batch_iterator s e B).get ⟨i + 1, hi⟩).2.1 =
        ((batch_iterator s e B).get ⟨i, Nat.lt_of_succ_lt hi⟩).2.2 + 1) ∧
    (∀ i (hi : i < (batch_iterator s e B).length),
        i + 1 ≠ (batch_iterator s e B).length →
      ((batch_iterator s e B).get ⟨i, hi⟩).2.2 + 1 -
        ((batch_iterator s e B).get ⟨i, hi⟩).2.1 = B) ∧
    (∀ hne : batch_iterator s e B ≠ [],
      ((batch_iterator s e B).get ⟨(batch_iterator s e B).length - 1,
          Nat.sub_lt (List.length_pos.mpr hne) Nat.one_pos⟩).2.2 + 1 -
        ((batch_iterator s e B).get ⟨(batch_iterator s e B).length - 1,
          Nat.sub_lt (List.length_pos.mpr hne) Nat.one_pos⟩).2.1 =
        (e + 1 - s - 1) % B + 1 ∧
      (e + 1 - s - 1) % B + 1 ≤ B) := by
  have hlen : (batch_iterator s e B).length = (e + 1 - s + B - 1) / B :=
    batch_iterator_length s e B hs
  have hlt : ∀ i, i < (batch_iterator s e B).length ↔ i * B < e + 1 - s := by
    intro i
    rw [hlen]
    exact lt_ceil_div_iff _ _ _ hB
  refine ⟨?_, ?_, ?_, ?_, ?_, ?_, ?_, ?_⟩
  · -- empty when e < s
    intro h
    apply List.eq_nil_of_length_eq_zero
    rw [hlen]
    have h0 : e + 1 - s = 0 := by omega
    rw [h0]
    exact Nat.div_eq_of_lt (by omega)
  · -- nonempty when s ≤ e
    intro h hnil
    have h0 : 0 < (batch_iterator s e B).length := (hlt 0).mpr (by omega)
    rw [hnil] at h0
    simp at h0
  · -- batch numbers are 0, 1, 2, … in order
    apply List.ext_get
    · simp
    · intro i h1 h2
      have hb : i < (batch_iterator s e B).length := by simpa using h1
      simp only [List.get_eq_getElem, List.getElem_map, List.getElem_range]
      rw [batch_iterator_getElem s e B i hs hb]
  · -- exact coverage of [s, e]
    intro p
    constructor
    · rintro ⟨hp1, hp2⟩
      have hdm := Nat.div_add_mod (p - s) B
      have hmod : (p - s) % B < B := Nat.mod_lt _ (by omega)
      have hc : ((p - s) / B) * B = B * ((p - s) / B) := Nat.mul_comm _ _
      have hqlen : (p - s) / B < (batch_iterator s e B).length := by
        rw [hlt ((p - s) / B)]
        omega
      refine ⟨(batch_iterator s e B).get ⟨(p - s) / B, hqlen⟩,
        List.get_mem _ _ hqlen, ?_⟩
      rw [batch_iterator_get s e B ((p - s) / B) hs hqlen]
      dsimp only
      refine ⟨by omega, Nat.le_min.mpr ⟨by omega, hp2⟩⟩
    · rintro ⟨d, hd, hd1, hd2⟩
      obtain ⟨⟨i, hi⟩, hget⟩ := List.mem_iff_get.mp hd
      rw [batch_iterator_get s e B i hs hi] at hget
      subst hget
      dsimp only at hd1 hd2
      have hiB : i * B < e + 1 - s := (hlt i).mp hi
      have hmin : min (s + i * B + B - 1) e ≤ e := Nat.min_le_right _ _
      exact ⟨by omega, by omega⟩
  · -- pairwise disjoint, in order
    intro i j hi hj hij
    rw [batch_iterator_get s e B i hs hi, batch_iterator_get s e B j hs hj]
    dsimp only
    have hjB : j * B < e + 1 - s := (hlt j).mp hj
    have hstep : i * B + B ≤ j * B := by
      have h1 : (i + 1) * B ≤ j * B := Nat.mul_le_mul_right B (by omega)
      have h2 : (i + 1) * B = i * B + B := by ring
      omega
    have hmin : min (s + i * B + B - 1) e ≤ s + i * B + B - 1 :=
      Nat.min_le_left _ _
    omega
  · -- contiguity
    intro i hi
    rw [batch_iterator_get s e B (i + 1) hs hi,
      batch_iterator_get s e B i hs (Nat.lt_of_succ_lt hi)]
    dsimp only
    have hsucc : (i + 1) * B < e + 1 - s := (hlt (i + 1)).mp hi
    have h2 : (i + 1) * B = i * B + B := by ring
    have hmin : min (s + i * B + B - 1) e = s + i * B + B - 1 :=
      Nat.min_eq_left (by omega)
    rw [hmin]
    omega
  · -- non-last spans have length exactly B
    intro i hi hne
    rw [batch_iterator_get s e B i hs hi]
    dsimp only
    have hsucc : i + 1 < (batch_iterator s e B).length := by omega
    have hlt' : (i + 1) * B < e + 1 - s := (hlt (i + 1)).mp hsucc
    have h2 : (i + 1) * B = i * B + B := by ring
    have hmin : min (s + i * B + B - 1) e = s + i * B + B - 1 :=
      Nat.min_eq_left (by omega)
    rw [hmin]
    omega
  · -- last span length
    intro hne
    have hpos : 0 < (batch_iterator s e B).length := List.length_pos.mpr hne
    rw [batch_iterator_get s e B ((batch_iterator s e B).length - 1) hs
      (Nat.sub_lt hpos Nat.one_pos)]
    dsimp only
    have hlast : ((batch_iterator s e B).length - 1) * B < e + 1 - s :=
      (hlt _).mp (Nat.sub_lt hpos Nat.one_pos)
    have hfull : e + 1 - s ≤ (batch_iterator s e B).length * B := by
      by_contra hcon
      push_neg at hcon
      exact absurd ((hlt _).mpr hcon) (by omega)
    have h3 : (batch_iterator s e B).length * B =
        ((batch_iterator s e B).length - 1) * B + B := by
      have h4 : ((batch_iterator s e B).length - 1) + 1 =
          (batch_iterator s e B).length := by omega
      calc (batch_iterator s e B).length * B
          = (((batch_iterator s e B).length - 1) + 1) * B := by rw [h4]
        _ = ((batch_iterator s e B).length - 1) * B + B := by ring
    have hdm := Nat.div_add_mod (e + 1 - s - 1) B
    have hmod : (e + 1 - s - 1) % B < B := Nat.mod_lt _ (by omega)
    have hq : (batch_iterator s e B).length - 1 = (e + 1 - s - 1) / B := by
      rw [hlen]
      have hN : e + 1 - s + B - 1 = (e + 1 - s - 1) + B := by omega
      rw [hN, Nat.add_div_right _ (by omega)]
      exact Nat.succ_sub_one _
    have hkey : ((batch_iterator s e B).length - 1) * B =
        B * ((e + 1 - s - 1) / B) := by
      rw [hq, Nat.mul_comm]
    have hmin : min (s + ((batch_iterator s e B).length - 1) * B + B - 1) e =
        e := Nat.min_eq_right (by omega)
    rw [hmin]
    exact ⟨by omega, by omega⟩

/-- Witness for C1 at the spec's example `startPage=1, endPage=25,
batchSize=10` (descriptors `(0,1,10), (1,11,20), (2,21,25)`): page 13 is
covered by some descriptor's span. -/
theorem C1_batch_planner_witness :
    batch_iterator 1 25 10 = [(0, 1, 10), (1, 11, 20), (2, 21, 25)] ∧
    batch_iterator 1 25 10 ≠ [] ∧
    ∃ d ∈ batch_iterator 1 25 10, d.2.1 ≤ 13 ∧ 13 ≤ d.2.2 := by
  have h := C1_batch_planner 1 25 10 (by norm_num) (by norm_num)
  exact ⟨by decide, h.2.1 (by norm_num), (h.2.2.2.1 13).mp (by norm_num)⟩

end QwenOCR
